import Mathlib

/-!
Verification development for the PDF question/image extraction core of the
`examtopics_tools` repository (`src/modules/pdf/pdf-parser.ts`).

The TypeScript source is shallowly embedded:
* JavaScript numbers (page coordinates, matrix entries) are modelled as `ℚ`;
  none of the verified paths depend on floating-point rounding.
* JavaScript strings are Lean `String`s; the handful of regular expressions
  used by the source (`/Question\s*#\s*(\d+)/i`, noise-line and option-line
  tests, `/\s+/g`, `trim`) are modelled by explicit character-list scanners
  with the same semantics on the ASCII whitespace class.
* `Map`/`Set` objects are modelled as insertion-ordered association lists
  (`Map.set` overwrites in place, new keys append at the end), matching
  JavaScript iteration order.
* `Array.prototype.sort` with a numeric comparator is a stable sort; it is
  modelled by `List.insertionSort` with the corresponding total preorder.
* File-system effects (`fs.writeFile`) are modelled as event lists recorded
  in the document state; the PNG compression performed by the external
  `pngjs` encoder is modelled as the identity on the RGBA payload, so a
  "PNG buffer" is the `(width, height, rgba)` triple handed to the encoder.
* Page loading by the external `pdfjs` collaborator is modelled as an
  `Except`-valued page input: a page either yields its text items and
  operator list or throws, which is what the per-page `try`/`catch`
  in `extractPdfImagesIntoQuestions` observes.
-/

attribute [local semireducible] Rat.add Rat.mul Rat.inv Rat.sub Rat.ofScientific

/-! ## Character and string helpers (JavaScript semantics) -/

/-- ASCII members of the JavaScript `\s` class (also the characters removed
by `String.prototype.trim`).  The source only ever meets ASCII whitespace. -/
def isJsWs (c : Char) : Bool :=
  c == ' ' || c == '\t' || c == '\n' || c == '\r' || c == '\x0b' || c == '\x0c'

/-- Model of `String.prototype.trim` on a character list. -/
def jsTrimList (cs : List Char) : List Char :=
  ((cs.dropWhile isJsWs).reverse.dropWhile isJsWs).reverse

/-- Model of `String.prototype.trim`. -/
def jsTrim (s : String) : String :=
  String.mk (jsTrimList s.data)

/-- Helper for `.replace(/\s+/g, ' ')`: the boolean records whether the
previous character was part of a whitespace run already emitted as `' '`. -/
def collapseWsAux : Bool → List Char → List Char
  | _, [] => []
  | prevWs, c :: rest =>
    if isJsWs c then
      if prevWs then collapseWsAux true rest
      else ' ' :: collapseWsAux true rest
    else c :: collapseWsAux false rest

/-- Model of `.replace(/\s+/g, ' ')`. -/
def collapseWs (cs : List Char) : List Char :=
  collapseWsAux false cs

/-- Model of `.replace(/\s+/g, ' ').trim()` as applied to joined line text. -/
def normSpace (s : String) : String :=
  String.mk (jsTrimList (collapseWs s.data))

/-- Case-insensitive literal match: consumes `pat` (given in lower case)
from the head of `cs`, returning the rest on success. -/
def matchCI : List Char → List Char → Option (List Char)
  | [], cs => some cs
  | _ :: _, [] => none
  | p :: ps, c :: cs => if c.toLower == p then matchCI ps cs else none

/-- Digit-run value; models `Number('...')` on a capture of `\d+` (the
source additionally checks `Number.isFinite`, which holds for every digit
run short enough to be produced by a real page). -/
def digitsToNat (ds : List Char) : ℕ :=
  ds.foldl (fun n c => n * 10 + (c.toNat - '0'.toNat)) 0

/-- Attempt of `/Question\s*#\s*(\d+)/i` anchored at the current position,
returning the parsed capture. -/
def matchQuestionAt (cs : List Char) : Option ℕ :=
  match matchCI "question".data cs with
  | none => none
  | some cs1 =>
    match cs1.dropWhile isJsWs with
    | '#' :: cs2 =>
      let ds := (cs2.dropWhile isJsWs).takeWhile Char.isDigit
      if ds.isEmpty then none else some (digitsToNat ds)
    | _ => none

/-- Model of `text.match(/Question\s*#\s*(\d+)/i)`: leftmost match wins. -/
def findQuestionNumber : List Char → Option ℕ
  | [] => none
  | c :: rest =>
    match matchQuestionAt (c :: rest) with
    | some qn => some qn
    | none => findQuestionNumber rest

/-! ## Text line grouping (`groupTextIntoLines`) -/

/-- A positioned text fragment as delivered by `page.getTextContent()`:
the string payload and the translation components `transform[4]`,
`transform[5]` of its text matrix. -/
structure TextItem where
  str : String
  x : ℚ
  y : ℚ
deriving DecidableEq, Repr

/-- A grouped text line `{ y, text }`. -/
structure Line where
  y : ℚ
  text : String
deriving DecidableEq, Repr

/-- JavaScript `Math.round` (half-up, toward `+∞`) on rationals: the floor
of `q + 1/2`, written with `Int.fdiv` on the reduced fraction so that it
evaluates by kernel reduction. -/
def jsRound (q : ℚ) : ℤ :=
  (q + 1 / 2).num.fdiv (q + 1 / 2).den

/-- Quantization bucket `Math.round(y / 2) * 2` used as a `Map` key. -/
def yKeyOf (y : ℚ) : ℤ :=
  jsRound (y / 2) * 2

/-- Accumulated row for one bucket: the `y` of the first fragment seen and
the fragments pushed so far in arrival order. -/
structure RowAcc where
  y : ℚ
  parts : List (ℚ × String)
deriving DecidableEq, Repr

/-- Model of `rows.set(yKey, row)` on the insertion-ordered map: an
existing key keeps its position and receives the new part, a fresh key is
appended at the end. -/
def insertPart : List (ℤ × RowAcc) → ℤ → ℚ → ℚ → String → List (ℤ × RowAcc)
  | [], key, x, y, str => [(key, ⟨y, [(x, str)]⟩)]
  | (k, row) :: rest, key, x, y, str =>
    if k = key then (k, ⟨row.y, row.parts ++ [(x, str)]⟩) :: rest
    else (k, row) :: insertPart rest key x y str

/-- Body of the first loop of `groupTextIntoLines` for one text item. -/
def buildRowsStep (rows : List (ℤ × RowAcc)) (item : TextItem) : List (ℤ × RowAcc) :=
  let str := jsTrim item.str
  if str = "" then rows
  else insertPart rows (yKeyOf item.y) item.x item.y str

/-- First loop of `groupTextIntoLines`: bucket the nonempty trimmed
fragments by quantized vertical origin. -/
def buildRows (items : List TextItem) : List (ℤ × RowAcc) :=
  items.foldl buildRowsStep []

/-- Stable-sort order for fragments within a row: comparator `a.x - b.x`. -/
def partAscLe (a b : ℚ × String) : Prop := a.1 ≤ b.1

instance : DecidableRel partAscLe := fun a b => inferInstanceAs (Decidable (a.1 ≤ b.1))

instance : IsTotal (ℚ × String) partAscLe := ⟨fun a b => le_total a.1 b.1⟩

instance : IsTrans (ℚ × String) partAscLe := ⟨fun _ _ _ h1 h2 => le_trans h1 h2⟩

/-- Stable-sort order for lines: comparator `b.y - a.y` (descending). -/
def lineDescLe (a b : Line) : Prop := b.y ≤ a.y

instance : DecidableRel lineDescLe := fun a b => inferInstanceAs (Decidable (b.y ≤ a.y))

instance : IsTotal Line lineDescLe := ⟨fun a b => le_total b.y a.y⟩

instance : IsTrans Line lineDescLe := ⟨fun _ _ _ h1 h2 => le_trans h2 h1⟩

/-- Second half of `groupTextIntoLines`: a bucket becomes a line by sorting
its fragments left to right, joining with single spaces and normalizing
whitespace. -/
def rowToLine (row : RowAcc) : Line :=
  ⟨row.y,
   normSpace (String.intercalate " " ((List.insertionSort partAscLe row.parts).map (·.2)))⟩

/-- Model of `groupTextIntoLines`. -/
def groupTextIntoLines (items : List TextItem) : List Line :=
  List.insertionSort lineDescLe
    (((buildRows items).map (fun kr => rowToLine kr.2)).filter (fun l => l.text.length > 0))

/-! ## Noise and option line classification -/

/-- Anchored model of `/^Topic\s*\d+/i`. -/
def startsTopic (cs : List Char) : Bool :=
  match matchCI "topic".data cs with
  | some cs1 => !((cs1.dropWhile isJsWs).takeWhile Char.isDigit).isEmpty
  | none => false

/-- Anchored model of `/^Most\s*Voted/i`. -/
def startsMostVoted (cs : List Char) : Bool :=
  match matchCI "most".data cs with
  | some cs1 => (matchCI "voted".data (cs1.dropWhile isJsWs)).isSome
  | none => false

/-- Anchored model of `/^Correct\s*Answer:/i`. -/
def startsCorrectAnswer (cs : List Char) : Bool :=
  match matchCI "correct".data cs with
  | some cs1 => (matchCI "answer:".data (cs1.dropWhile isJsWs)).isSome
  | none => false

/-- Model of `isNoiseLine`. -/
def isNoiseLine (text : String) : Bool :=
  let t := jsTrimList text.data
  t.isEmpty || (matchQuestionAt t).isSome || startsTopic t || startsMostVoted t
    || startsCorrectAnswer t

/-- Model of `isOptionLine`, i.e. `/^\s*[A-H][.)]\s+/`. -/
def isOptionLine (text : String) : Bool :=
  match text.data.dropWhile isJsWs with
  | c :: d :: rest =>
    ('A' ≤ c && c ≤ 'H') && (d == '.' || d == ')') &&
      (match rest with
       | e :: _ => isJsWs e
       | [] => false)
  | _ => false

/-! ## Question anchors -/

/-- An anchor as used by the region loop: question number, vertical origin
and the index of its line in the page's line list. -/
structure QuestionAnchorLine where
  questionNumber : ℕ
  y : ℚ
  lineIndex : ℕ
deriving DecidableEq, Repr

/-- An anchor without a line index (`QuestionAnchor` in the source). -/
structure QuestionAnchor where
  questionNumber : ℕ
  y : ℚ
deriving DecidableEq, Repr

/-- Stable-sort order for anchors: comparator `b.y - a.y` (descending). -/
def anchorDescLe (a b : QuestionAnchorLine) : Prop := b.y ≤ a.y

instance : DecidableRel anchorDescLe := fun a b => inferInstanceAs (Decidable (b.y ≤ a.y))

instance : IsTotal QuestionAnchorLine anchorDescLe := ⟨fun a b => le_total b.y a.y⟩

instance : IsTrans QuestionAnchorLine anchorDescLe := ⟨fun _ _ _ h1 h2 => le_trans h2 h1⟩

/-- Scanning loop of `extractQuestionAnchorsFromLines`, carrying the
current line index. -/
def anchorScan : List Line → ℕ → List QuestionAnchorLine
  | [], _ => []
  | l :: rest, i =>
    match findQuestionNumber l.text.data with
    | some qn => ⟨qn, l.y, i⟩ :: anchorScan rest (i + 1)
    | none => anchorScan rest (i + 1)

/-- Model of `extractQuestionAnchorsFromLines`. -/
def extractQuestionAnchorsFromLines (lines : List Line) : List QuestionAnchorLine :=
  List.insertionSort anchorDescLe (anchorScan lines 0)

/-- Model of `findBestAnchorForImage`: scored linear scan, first-best wins,
score `anchor.y - imageY` for anchors at or above the image and
`10000 + (imageY - anchor.y)` for anchors strictly below. -/
def findBestAnchorForImage (anchors : List QuestionAnchor) (imageY : ℚ) : Option QuestionAnchor :=
  (anchors.foldl
    (fun best anchor =>
      let score := if anchor.y ≥ imageY then anchor.y - imageY else 10000 + (imageY - anchor.y)
      match best with
      | none => some (anchor, score)
      | some (ba, bs) => if score < bs then some (anchor, score) else some (ba, bs))
    none).map (·.1)

/-! ## Stem paragraphs (`buildStemParagraphs`) -/

/-- Paragraph flush: join the accumulated parts with spaces, normalize,
drop the paragraph if the result is empty. -/
def flushPara (y : ℚ) (parts : List String) : List Line :=
  let t := normSpace (String.intercalate " " parts)
  if t = "" then [] else [⟨y, t⟩]

/-- Loop body of `buildStemParagraphs` over the band's line slice.  The
accumulator mirrors the source's `current` variable: vertical origin of the
paragraph's first line and the accumulated texts. -/
def stemLoop : List Line → Option (ℚ × List String) → List Line
  | [], none => []
  | [], some (y, parts) => flushPara y parts
  | l :: rest, cur =>
    if isNoiseLine l.text then stemLoop rest cur
    else if isOptionLine l.text then
      match cur with
      | none => []
      | some (y, parts) => flushPara y parts
    else
      match cur with
      | none => stemLoop rest (some (l.y, [l.text]))
      | some (y, parts) =>
        if y - l.y > 18 then flushPara y parts ++ stemLoop rest (some (l.y, [l.text]))
        else stemLoop rest (some (y, parts ++ [l.text]))

/-- Model of `buildStemParagraphs` on the index range
`[startIndex, endIndexExclusive)`. -/
def buildStemParagraphs (lines : List Line) (startIndex endIndexExclusive : ℕ) : List Line :=
  stemLoop ((lines.drop startIndex).take (endIndexExclusive - startIndex)) none

/-! ## Operator stream interpreter (`extractImagesFromPage`) -/

/-- Affine transform `[a, b, c, d, e, f]` in PDF row-vector convention
(the source's `Matrix` tuple; renamed because Lean already has `Matrix`). -/
structure PdfMatrix where
  a : ℚ
  b : ℚ
  c : ℚ
  d : ℚ
  e : ℚ
  f : ℚ
deriving DecidableEq, Repr

/-- Identity transform `[1, 0, 0, 1, 0, 0]`. -/
def identityMatrix : PdfMatrix := ⟨1, 0, 0, 1, 0, 0⟩

/-- Model of `multiplyMatrix`. -/
def multiplyMatrix (m1 m2 : PdfMatrix) : PdfMatrix :=
  ⟨m1.a * m2.a + m1.c * m2.b,
   m1.b * m2.a + m1.d * m2.b,
   m1.a * m2.c + m1.c * m2.d,
   m1.b * m2.c + m1.d * m2.d,
   m1.a * m2.e + m1.c * m2.f + m1.e,
   m1.b * m2.e + m1.d * m2.f + m1.f⟩

/-- A raw image object as resolved from `page.objs`/`page.commonObjs` or
carried inline: width, height and the raw pixel byte payload. -/
structure ImageObj where
  width : ℕ
  height : ℕ
  data : List ℕ
deriving DecidableEq, Repr

/-- The value handed to the external `pngjs` encoder: dimensions plus RGBA
payload.  `PNG.sync.write` is deterministic in these, so the encoder is
modelled as the identity on this record. -/
structure PngImage where
  width : ℕ
  height : ℕ
  data : List ℕ
deriving DecidableEq, Repr

/-- RGB-to-RGBA expansion loop of `rgbaToPngBuffer`: each 3-byte pixel
gains an alpha byte `255`. -/
def expandRgbToRgba : List ℕ → List ℕ
  | r :: g :: b :: rest => r :: g :: b :: 255 :: expandRgbToRgba rest
  | _ => []

/-- Model of `rgbaToPngBuffer`.  The `null`/`typeof` guards of the source
correspond to the `Option` argument; byte lengths are compared exactly as
in the source (RGBA first, then RGB, otherwise no image). -/
def rgbaToPngBuffer : Option ImageObj → Option PngImage
  | none => none
  | some image =>
    if image.data.length = image.width * image.height * 4 then
      some ⟨image.width, image.height, image.data⟩
    else if image.data.length = image.width * image.height * 3 then
      some ⟨image.width, image.height, expandRgbToRgba image.data⟩
    else none

/-- One drawing operator, after resolution of named image objects: the
`paintImage` payload is the resolved object (or `none` when both object
tables fail to resolve the name, mirroring the `.catch(() => null)` path).
`transform` covers `OPS.transform` and `OPS.setTransform`, both of which
the source folds into the CTM by multiplication; the source's
`Array.isArray(m) && m.length >= 6` guard always holds here because the
constructor carries exactly six values. -/
inductive PdfOp where
  | save : PdfOp
  | restore : PdfOp
  | transform (m : PdfMatrix) : PdfOp
  | paintImage (img : Option ImageObj) : PdfOp
  | other : PdfOp
deriving DecidableEq, Repr

/-- An extracted page image: encoded pixels, dimensions, and the
translation components of the CTM at paint time. -/
structure ExtractedPageImage where
  pngBuffer : PngImage
  width : ℕ
  height : ℕ
  x : ℚ
  y : ℚ
deriving DecidableEq, Repr

/-- Interpreter state of `extractImagesFromPage`: transform stack (top at
head), current transform, images collected so far. -/
structure GfxState where
  stack : List PdfMatrix
  ctm : PdfMatrix
  images : List ExtractedPageImage
deriving DecidableEq, Repr

/-- One iteration of the operator loop in `extractImagesFromPage`. -/
def interpStep (minWidth minHeight : ℕ) (s : GfxState) (op : PdfOp) : GfxState :=
  match op with
  | .save => { s with stack := s.ctm :: s.stack }
  | .restore =>
    { s with ctm := s.stack.headD identityMatrix, stack := s.stack.tail }
  | .transform m => { s with ctm := multiplyMatrix s.ctm m }
  | .paintImage img =>
    let width := match img with
      | some o => o.width
      | none => 0
    let height := match img with
      | some o => o.height
      | none => 0
    if width < minWidth || height < minHeight then s
    else
      match rgbaToPngBuffer img with
      | none => s
      | some png =>
        { s with images := s.images ++ [⟨png, width, height, s.ctm.e, s.ctm.f⟩] }
  | .other => s

/-- Model of `extractImagesFromPage`. -/
def extractImagesFromPage (ops : List PdfOp) (minWidth minHeight : ℕ) :
    List ExtractedPageImage :=
  (ops.foldl (interpStep minWidth minHeight) ⟨[], identityMatrix, []⟩).images

/-! ## Ordered blocks and HTML serialization -/

/-- Model of `escapeHtml`.  The source chains five global `replace` calls
(`&`, `<`, `>`, `"`, `'` in that order); since no replacement string
contains a character replaced by a later pass, the chain coincides with
this simultaneous character-wise substitution. -/
def escapeHtmlChar (c : Char) : String :=
  if c == '&' then "&amp;"
  else if c == '<' then "&lt;"
  else if c == '>' then "&gt;"
  else if c == '"' then "&quot;"
  else if c == '\'' then "&#039;"
  else String.mk [c]

/-- Model of `escapeHtml`. -/
def escapeHtml (s : String) : String :=
  String.join (s.data.map escapeHtmlChar)

/-- Tagged content block of the interleaver. -/
inductive OrderedBlock where
  | text (y : ℚ) (text : String) : OrderedBlock
  | image (y : ℚ) (src : String) (alt : String) : OrderedBlock
deriving DecidableEq, Repr

/-- Vertical origin of a block. -/
def OrderedBlock.y : OrderedBlock → ℚ
  | .text y _ => y
  | .image y _ _ => y

/-- Stable-sort order for blocks: comparator `b.y - a.y` (descending). -/
def blockDescLe (a b : OrderedBlock) : Prop := b.y ≤ a.y

instance : DecidableRel blockDescLe := fun a b => inferInstanceAs (Decidable (b.y ≤ a.y))

instance : IsTotal OrderedBlock blockDescLe := ⟨fun a b => le_total b.y a.y⟩

instance : IsTrans OrderedBlock blockDescLe := ⟨fun _ _ _ h1 h2 => le_trans h2 h1⟩

/-- Stable-sort order for region images: comparator `y.y - x.y`. -/
def imgDescLe (a b : ExtractedPageImage) : Prop := b.y ≤ a.y

instance : DecidableRel imgDescLe := fun a b => inferInstanceAs (Decidable (b.y ≤ a.y))

/-- HTML rendering of one block. -/
def renderBlock : OrderedBlock → String
  | .text _ t => "<p>" ++ escapeHtml t ++ "</p>"
  | .image _ src alt => "<p><img src=\"" ++ src ++ "\" alt=\"" ++ escapeHtml alt ++ "\" /></p>"

/-- The block interleaver: sort all of a band's blocks by descending
vertical origin and serialize them to HTML (`blocks.sort(...)` followed by
`.map(...).join('')`). -/
def interleaveBandHtml (blocks : List OrderedBlock) : String :=
  String.join ((List.insertionSort blockDescLe blocks).map renderBlock)

/-! ## Document-level model (`extractPdfImagesIntoQuestions`) -/

/-- A question record from the input JSON.  Only `questionNumber` and
`content` are touched by the extraction core; every other field (`id`,
`type`, `options`, ... and any unknown key kept by `JSON.parse`) is
bundled in `extra`. -/
structure Question (ρ : Type) where
  questionNumber : ℕ
  content : String
  extra : ρ
deriving DecidableEq, Repr

/-- The parsed input JSON document: the `questions` array plus whatever
other top-level structure the file carries. -/
structure QuestionsDoc (ρ δ : Type) where
  questions : List (Question ρ)
  extra : δ
deriving DecidableEq, Repr

/-- Model of `questionsByNumber.get(n)`: the `Map` is built by a single
pass of `set`, so the last question with a given number wins. -/
def lookupQuestionByNumber {ρ : Type} (qs : List (Question ρ)) (n : ℕ) : Option (Question ρ) :=
  (qs.filter (fun q => q.questionNumber = n)).getLast?

/-- Mutation `question.content = html` through the map reference: the last
question with the given number is updated in place.  `updateFirstContent`
does it for the first occurrence; the list is reversed around it. -/
def updateFirstContent {ρ : Type} : List (Question ρ) → ℕ → String → List (Question ρ)
  | [], _, _ => []
  | q :: qs, n, h =>
    if q.questionNumber = n then { q with content := h } :: qs
    else q :: updateFirstContent qs n h

/-- Update of the last question whose number matches. -/
def updateLastContent {ρ : Type} (qs : List (Question ρ)) (n : ℕ) (h : String) :
    List (Question ρ) :=
  (updateFirstContent qs.reverse n h).reverse

/-- Model of `Map.get` on `perQuestionCounts`. -/
def mapGet : List (ℕ × ℕ) → ℕ → Option ℕ
  | [], _ => none
  | (k, v) :: rest, n => if k = n then some v else mapGet rest n

/-- Model of `Map.set` on `perQuestionCounts`. -/
def mapSet : List (ℕ × ℕ) → ℕ → ℕ → List (ℕ × ℕ)
  | [], n, v => [(n, v)]
  | (k, w) :: rest, n, v => if k = n then (n, v) :: rest else (k, w) :: mapSet rest n v

/-- Model of `Set.add` on `updated`. -/
def setAdd (s : List ℕ) (n : ℕ) : List ℕ :=
  if n ∈ s then s else s ++ [n]

/-- Accumulated run state: the live `parsed.questions` array, the
cross-page per-question image counter, the `updated` set, the two counters
and the recorded effects (page-failure log lines, snapshots written to the
output JSON, image files written). -/
structure DocState (ρ : Type) where
  questions : List (Question ρ)
  perQuestionCounts : List (ℕ × ℕ)
  updated : List ℕ
  extractedImages : ℕ
  linkedImages : ℕ
  logs : List (ℕ × String)
  jsonWrites : List (List (Question ρ))
  imageWrites : List (String × PngImage)
deriving DecidableEq, Repr

/-- Static run configuration: `path.posix.join('images', examName)` and
the minimum image dimensions. -/
structure RunConfig where
  imagesDirRelative : String
  minWidth : ℕ
  minHeight : ℕ
deriving DecidableEq, Repr

/-- Per-image body of the region loop (`for (const img of imagesSorted)`):
bump the counters, derive the file name, record the PNG write and emit the
image block. -/
def processRegionImage {ρ : Type} (cfg : RunConfig) (pageIndex qn : ℕ)
    (acc : DocState ρ × List OrderedBlock) (img : ExtractedPageImage) :
    DocState ρ × List OrderedBlock :=
  let st := acc.1
  let blocks := acc.2
  let currentCount := (mapGet st.perQuestionCounts qn).getD 0
  let nextCountValue := currentCount + 1
  let filename :=
    "q" ++ toString qn ++ "_p" ++ toString pageIndex ++ "_" ++ toString nextCountValue ++ ".png"
  let outputImageRelative := cfg.imagesDirRelative ++ "/" ++ filename
  ({ st with
      extractedImages := st.extractedImages + 1,
      perQuestionCounts := mapSet st.perQuestionCounts qn nextCountValue,
      imageWrites := st.imageWrites ++ [(outputImageRelative, img.pngBuffer)],
      linkedImages := st.linkedImages + 1 },
   blocks ++ [OrderedBlock.image img.y outputImageRelative
      ("Question " ++ toString qn ++ " image " ++ toString nextCountValue)])

/-- The filter applied to `pageImages` for one anchor's band:
`img.y <= upperY && img.y > lowerY`, where `lowerY` is the next anchor's
vertical origin or `-∞` when the anchor is the last one. -/
def imageInRegion (anchor : QuestionAnchorLine) (nextAnchor : Option QuestionAnchorLine)
    (imgY : ℚ) : Bool :=
  decide (imgY ≤ anchor.y) &&
    (match nextAnchor with
     | some n => decide (imgY > n.y)
     | none => true)

/-- Per-anchor body of the page loop (source lines 480-532): look the
question up, collect the band's images, rebuild the stem paragraphs,
interleave and, when the HTML is nonempty, overwrite the question's
content. -/
def processAnchor {ρ : Type} (cfg : RunConfig) (pageIndex : ℕ) (lines : List Line)
    (pageImages : List ExtractedPageImage) (st : DocState ρ)
    (anchor : QuestionAnchorLine) (nextAnchor : Option QuestionAnchorLine) : DocState ρ :=
  match lookupQuestionByNumber st.questions anchor.questionNumber with
  | none => st
  | some _ =>
    let imagesInRegion := pageImages.filter (fun img => imageInRegion anchor nextAnchor img.y)
    if imagesInRegion.isEmpty then st
    else
      let endLineIndexExclusive :=
        match nextAnchor with
        | some n => n.lineIndex
        | none => lines.length
      let stemParagraphs := buildStemParagraphs lines (anchor.lineIndex + 1) endLineIndexExclusive
      let textBlocks := stemParagraphs.map (fun p => OrderedBlock.text p.y p.text)
      let imagesSorted := List.insertionSort imgDescLe imagesInRegion
      let folded := imagesSorted.foldl (processRegionImage cfg pageIndex anchor.questionNumber)
        (st, [])
      let st1 := folded.1
      let imageBlocks := folded.2
      let html := interleaveBandHtml (textBlocks ++ imageBlocks)
      if html ≠ "" then
        { st1 with
            questions := updateLastContent st1.questions anchor.questionNumber html,
            updated := setAdd st1.updated anchor.questionNumber }
      else st1

/-- Pairing of each anchor with its successor, as read off `anchors[a]`
and `anchors[a + 1]` inside the loop. -/
def withNext {α : Type} : List α → List (α × Option α)
  | [] => []
  | [a] => [(a, none)]
  | a :: b :: rest => (a, some b) :: withNext (b :: rest)

/-- The text items and recorded operator list of one successfully loaded
page. -/
structure PageData where
  textItems : List TextItem
  ops : List PdfOp
deriving DecidableEq, Repr

/-- Body of the per-page `try` block: group lines, locate anchors, extract
images, run the anchor loop, and flush the JSON state when the page
yielded at least one image. -/
def processPage {ρ : Type} (cfg : RunConfig) (st : DocState ρ) (pageIndex : ℕ)
    (pd : PageData) : DocState ρ :=
  let lines := groupTextIntoLines pd.textItems
  let anchors := extractQuestionAnchorsFromLines lines
  let pageImages := extractImagesFromPage pd.ops cfg.minWidth cfg.minHeight
  let st1 := (withNext anchors).foldl
    (fun s p => processAnchor cfg pageIndex lines pageImages s p.1 p.2) st
  if pageImages.length > 0 then
    { st1 with jsonWrites := st1.jsonWrites ++ [st1.questions] }
  else st1

/-- Log entry appended by the `catch` branch
(`console.error('Failed processing page ...')`). -/
def addPageLog {ρ : Type} (st : DocState ρ) (pageIndex : ℕ) (e : String) : DocState ρ :=
  { st with logs := st.logs ++ [(pageIndex, e)] }

/-- The page loop: pages are processed in order with a 1-based index; a
page whose loading or processing throws only contributes a log entry. -/
def runPagesFrom {ρ : Type} (cfg : RunConfig) :
    List (Except String PageData) → ℕ → DocState ρ → DocState ρ
  | [], _, st => st
  | p :: rest, pageIndex, st =>
    let st1 := match p with
      | .ok pd => processPage cfg st pageIndex pd
      | .error e => addPageLog st pageIndex e
    runPagesFrom cfg rest (pageIndex + 1) st1

/-- Initial run state for a validated input document. -/
def initialDocState {ρ δ : Type} (doc : QuestionsDoc ρ δ) : DocState ρ :=
  ⟨doc.questions, [], [], 0, 0, [], [], []⟩

/-- Model of `extractPdfImagesIntoQuestions` after input validation: run
every page, then write the output JSON one final, unconditional time.
Returns the written document (with the untouched surrounding structure)
together with the final run state. -/
def extractPdfImagesIntoQuestionsModel {ρ δ : Type} (cfg : RunConfig)
    (doc : QuestionsDoc ρ δ) (pages : List (Except String PageData)) :
    QuestionsDoc ρ δ × DocState ρ :=
  let stFinal := runPagesFrom cfg pages 1 (initialDocState doc)
  let stFinal := { stFinal with jsonWrites := stFinal.jsonWrites ++ [stFinal.questions] }
  (⟨stFinal.questions, doc.extra⟩, stFinal)

/-! ## Spec-worded paragraph builders (claim C2) -/

/-- Modelled from the spec sentence behind claim C2: accumulate a line into
the current paragraph exactly while its vertical gap to the IMMEDIATELY
PREVIOUS accumulated line is at most 18 units; a larger gap closes the
paragraph and starts a new one at that line.  The state carries the
paragraph's first-line origin, the previous accumulated line's origin and
the accumulated texts. -/
def stemLoopPrevLineGap : List Line → Option (ℚ × ℚ × List String) → List Line
  | [], none => []
  | [], some (y, _, parts) => flushPara y parts
  | l :: rest, cur =>
    if isNoiseLine l.text then stemLoopPrevLineGap rest cur
    else if isOptionLine l.text then
      match cur with
      | none => []
      | some (y, _, parts) => flushPara y parts
    else
      match cur with
      | none => stemLoopPrevLineGap rest (some (l.y, l.y, [l.text]))
      | some (y, prevY, parts) =>
        if prevY - l.y ≤ 18 then stemLoopPrevLineGap rest (some (y, l.y, parts ++ [l.text]))
        else flushPara y parts ++ stemLoopPrevLineGap rest (some (l.y, l.y, [l.text]))

/-- The paragraph builder claim C2 describes (gap measured to the previous
accumulated line). -/
def buildStemParagraphsPrevLineGap (lines : List Line) (startIndex endIndexExclusive : ℕ) :
    List Line :=
  stemLoopPrevLineGap ((lines.drop startIndex).take (endIndexExclusive - startIndex)) none

/-- Modelled from the amended claim C2: accumulate a line into the current
paragraph exactly while its vertical gap to the FIRST line of the current
paragraph is at most 18 units; a larger gap to that first line closes the
paragraph and starts a new one at that line. -/
def stemLoopFirstLineGap : List Line → Option (ℚ × List String) → List Line
  | [], none => []
  | [], some (y, parts) => flushPara y parts
  | l :: rest, cur =>
    if isNoiseLine l.text then stemLoopFirstLineGap rest cur
    else if isOptionLine l.text then
      match cur with
      | none => []
      | some (y, parts) => flushPara y parts
    else
      match cur with
      | none => stemLoopFirstLineGap rest (some (l.y, [l.text]))
      | some (y, parts) =>
        if y - l.y ≤ 18 then stemLoopFirstLineGap rest (some (y, parts ++ [l.text]))
        else flushPara y parts ++ stemLoopFirstLineGap rest (some (l.y, [l.text]))

/-- The paragraph builder of the amended claim C2. -/
def buildStemParagraphsFirstLineGap (lines : List Line) (startIndex endIndexExclusive : ℕ) :
    List Line :=
  stemLoopFirstLineGap ((lines.drop startIndex).take (endIndexExclusive - startIndex)) none

/-! ## Region assignment view (claim C1) -/

/-- The anchors whose band filter admits an image at height `imgY`, in
anchor order: exactly the anchors for which the page loop's
`imagesInRegion` filter would select the image. -/
def assignedRegions (anchors : List QuestionAnchorLine) (imgY : ℚ) : List QuestionAnchorLine :=
  ((withNext anchors).filter (fun p => imageInRegion p.1 p.2 imgY)).map (·.1)

/-! ## Frame relation (claim C9) -/

/-- Two question lists agree on everything except possibly the `content`
strings: same length, same order, same `questionNumber`, same other
fields. -/
def ContentOnlyUpdate {ρ : Type} (qs qs' : List (Question ρ)) : Prop :=
  List.Forall₂ (fun q q' => q.questionNumber = q'.questionNumber ∧ q.extra = q'.extra) qs qs'

/-! ## Concrete inputs used by counterexamples and witnesses -/

/-- A page whose text repeats the question marker `Question #3` on two
distinct lines. -/
def itemsQuestionTwice : List TextItem :=
  [⟨"Question #3", 0, 100⟩, ⟨"see Question #3", 0, 50⟩]

/-- Three band lines with consecutive vertical gaps of 10 units each (so
every gap to the previous line is at most 18, while the third line is 20
units below the first). -/
def bandLinesSmallGaps : List Line :=
  [⟨100, "alpha"⟩, ⟨90, "bravo"⟩, ⟨80, "charlie"⟩]

/-- Scenario A text items: the band lines
`["Question #1", "Topic 2", "What is the capital of X?", "A. Paris"]`. -/
def itemsScenarioA : List TextItem :=
  [⟨"Question #1", 0, 700⟩, ⟨"Topic 2", 0, 680⟩, ⟨"What is the capital of X?", 0, 660⟩,
   ⟨"A. Paris", 0, 640⟩]

/-- Run configuration with the default 80×80 minimum image size. -/
def cfgScenarioA : RunConfig := ⟨"images/exam", 80, 80⟩

/-- Input document for Scenario A: one question numbered 1 with a
recognizable prior content string. -/
def docScenarioA : QuestionsDoc Unit Unit := ⟨[⟨1, "<p>orig</p>", ()⟩], ()⟩

/-- The Scenario A page: the four band lines and no drawing operators (so
no images). -/
def pageScenarioA : PageData := ⟨itemsScenarioA, []⟩

/-! ## Row invariants and line distinctness -/

/-- Keys produced by `insertPart` are the inserted key or an existing key. -/
lemma insertPart_key_mem (rows : List (ℤ × RowAcc)) (key : ℤ) (x y : ℚ) (str : String) :
    ∀ p ∈ insertPart rows key x y str, p.1 = key ∨ p.1 ∈ rows.map (·.1) := by
  induction rows with
  | nil =>
    intro p hp
    simp [insertPart] at hp
    subst hp
    exact Or.inl rfl
  | cons pr rest ih =>
    obtain ⟨k, row⟩ := pr
    intro p hp
    by_cases hkey : k = key
    · simp [insertPart, hkey] at hp
      rcases hp with hp | hp
      · subst hp; exact Or.inl rfl
      · exact Or.inr (by simp; exact Or.inr ⟨p.2, by simpa using hp⟩)
    · simp [insertPart, hkey] at hp
      rcases hp with hp | hp
      · subst hp; exact Or.inr (by simp)
      · rcases ih p hp with h | h
        · exact Or.inl h
        · exact Or.inr (by simp at h ⊢; exact Or.inr h)

/-- `insertPart` preserves the fact that every row is stored under the
quantization key of its own `y`. -/
lemma insertPart_key_eq (rows : List (ℤ × RowAcc)) (key : ℤ) (x y : ℚ) (str : String)
    (h : ∀ p ∈ rows, p.1 = yKeyOf p.2.y) (hk : key = yKeyOf y) :
    ∀ p ∈ insertPart rows key x y str, p.1 = yKeyOf p.2.y := by
  induction rows with
  | nil =>
    intro p hp
    simp [insertPart] at hp
    subst hp
    exact hk
  | cons pr rest ih =>
    obtain ⟨k, row⟩ := pr
    intro p hp
    by_cases hkey : k = key
    · simp [insertPart, hkey] at hp
      rcases hp with hp | hp
      · subst hp
        have hk0 := h (k, row) (by simp)
        simpa [← hkey] using hk0
      · exact h p (by simp [hp])
    · simp [insertPart, hkey] at hp
      rcases hp with hp | hp
      · subst hp
        exact h (k, row) (by simp)
      · exact ih (fun q hq => h q (by simp [hq])) p hp

/-- `insertPart` preserves key distinctness. -/
lemma insertPart_pairwise (rows : List (ℤ × RowAcc)) (key : ℤ) (x y : ℚ) (str : String)
    (h : rows.Pairwise (fun p q => p.1 ≠ q.1)) :
    (insertPart rows key x y str).Pairwise (fun p q => p.1 ≠ q.1) := by
  induction rows with
  | nil => simp [insertPart]
  | cons pr rest ih =>
    obtain ⟨k, row⟩ := pr
    rw [List.pairwise_cons] at h
    by_cases hkey : k = key
    · simp only [insertPart, if_pos hkey]
      rw [List.pairwise_cons]
      exact ⟨fun q hq => h.1 q hq, h.2⟩
    · simp only [insertPart, if_neg hkey]
      rw [List.pairwise_cons]
      refine ⟨?_, ih h.2⟩
      intro q hq
      rcases insertPart_key_mem rest key x y str q hq with h1 | h1
      · rw [h1]; exact hkey
      · obtain ⟨q', hq', hq'eq⟩ := List.mem_map.1 h1
        rw [← hq'eq]
        exact h.1 q' hq'

/-- Invariant of the bucketing loop: every row is stored under its own
quantization key, and keys are pairwise distinct. -/
lemma buildRows_inv (items : List TextItem) :
    (∀ p ∈ buildRows items, p.1 = yKeyOf p.2.y) ∧
    (buildRows items).Pairwise (fun p q => p.1 ≠ q.1) := by
  suffices h : ∀ (items : List TextItem) (rows : List (ℤ × RowAcc)),
      (∀ p ∈ rows, p.1 = yKeyOf p.2.y) → rows.Pairwise (fun p q => p.1 ≠ q.1) →
      (∀ p ∈ items.foldl buildRowsStep rows, p.1 = yKeyOf p.2.y) ∧
        (items.foldl buildRowsStep rows).Pairwise (fun p q => p.1 ≠ q.1) by
    exact h items [] (by simp) (by simp)
  intro items
  induction items with
  | nil => intro rows h1 h2; exact ⟨h1, h2⟩
  | cons item rest ih =>
    intro rows h1 h2
    rw [List.foldl_cons]
    by_cases hstr : jsTrim item.str = ""
    · have hstep : buildRowsStep rows item = rows := by simp [buildRowsStep, hstr]
      rw [hstep]
      exact ih rows h1 h2
    · have hstep : buildRowsStep rows item =
          insertPart rows (yKeyOf item.y) item.x item.y (jsTrim item.str) := by
        simp [buildRowsStep, hstr]
      rw [hstep]
      exact ih _ (insertPart_key_eq rows _ _ _ _ h1 rfl)
        (insertPart_pairwise rows _ _ _ _ h2)

/-- Distinct rows carry distinct vertical origins: equal `y` would force
equal quantization keys. -/
lemma buildRows_pairwise_yNe (items : List TextItem) :
    (buildRows items).Pairwise (fun p q => p.2.y ≠ q.2.y) := by
  obtain ⟨hkey, hpair⟩ := buildRows_inv items
  refine List.Pairwise.imp_of_mem ?_ hpair
  intro p q hp hq hne heq
  exact hne (by rw [hkey p hp, hkey q hq, heq])

/-- All lines produced by `groupTextIntoLines` have pairwise distinct
vertical origins. -/
lemma groupTextIntoLines_pairwise_yNe (items : List TextItem) :
    (groupTextIntoLines items).Pairwise (fun a b => a.y ≠ b.y) := by
  have hrows := buildRows_pairwise_yNe items
  have hmap : (((buildRows items).map (fun kr => rowToLine kr.2)).Pairwise
      (fun a b => a.y ≠ b.y)) := by
    rw [List.pairwise_map]
    exact hrows.imp (fun h => by simpa [rowToLine] using h)
  have hfilter := hmap.filter (fun l => decide (l.text.length > 0))
  have hperm := List.perm_insertionSort lineDescLe
    (((buildRows items).map (fun kr => rowToLine kr.2)).filter (fun l => l.text.length > 0))
  exact (hperm.pairwise_iff (fun h => Ne.symm h)).mpr (by simpa using hfilter)

/-- The lines produced by `groupTextIntoLines` are sorted by weakly
descending vertical origin. -/
lemma groupTextIntoLines_sorted (items : List TextItem) :
    (groupTextIntoLines items).Pairwise lineDescLe :=
  List.sorted_insertionSort lineDescLe _

/-- The lines produced by `groupTextIntoLines` are strictly descending in
vertical origin. -/
lemma groupTextIntoLines_strictDesc (items : List TextItem) :
    (groupTextIntoLines items).Pairwise (fun a b => b.y < a.y) :=
  ((groupTextIntoLines_sorted items).and (groupTextIntoLines_pairwise_yNe items)).imp
    (fun h => lt_of_le_of_ne h.1 (Ne.symm h.2))

/-! ## Anchor scan facts -/

/-- Anchors found from index `i` onward have line index at least `i`. -/
lemma anchorScan_lineIndex_ge :
    ∀ (lines : List Line) (i : ℕ) (a : QuestionAnchorLine), a ∈ anchorScan lines i →
      i ≤ a.lineIndex := by
  intro lines
  induction lines with
  | nil => intro i a ha; simp [anchorScan] at ha
  | cons l rest ih =>
    intro i a ha
    cases hm : findQuestionNumber l.text.data with
    | some qn =>
      rw [anchorScan, hm] at ha
      rcases List.mem_cons.1 ha with rfl | ha
      · exact le_refl i
      · exact le_trans (Nat.le_succ i) (ih (i + 1) a ha)
    | none =>
      rw [anchorScan, hm] at ha
      exact le_trans (Nat.le_succ i) (ih (i + 1) a ha)

/-- Anchors are scanned in strictly increasing line-index order. -/
lemma anchorScan_pairwise_lineIndex :
    ∀ (lines : List Line) (i : ℕ),
      (anchorScan lines i).Pairwise (fun a b => a.lineIndex < b.lineIndex) := by
  intro lines
  induction lines with
  | nil => intro i; simp [anchorScan]
  | cons l rest ih =>
    intro i
    cases hm : findQuestionNumber l.text.data with
    | some qn =>
      rw [anchorScan, hm, List.pairwise_cons]
      refine ⟨?_, ih (i + 1)⟩
      intro b hb
      exact lt_of_lt_of_le (Nat.lt_succ_self i) (anchorScan_lineIndex_ge rest (i + 1) b hb)
    | none =>
      rw [anchorScan, hm]
      exact ih (i + 1)

/-- The vertical origins of the scanned anchors form a sublist of the
vertical origins of the lines. -/
lemma anchorScan_y_sublist :
    ∀ (lines : List Line) (i : ℕ),
      ((anchorScan lines i).map (fun a => a.y)).Sublist (lines.map (fun l => l.y)) := by
  intro lines
  induction lines with
  | nil => intro i; simp [anchorScan]
  | cons l rest ih =>
    intro i
    cases hm : findQuestionNumber l.text.data with
    | some qn =>
      rw [anchorScan, hm]
      simpa using List.Sublist.cons₂ l.y (ih (i + 1))
    | none =>
      rw [anchorScan, hm]
      exact List.Sublist.cons l.y (ih (i + 1))

/-- Anchors extracted from grouped page lines are sorted weakly descending,
have pairwise distinct vertical origins, and pairwise distinct line
indices. -/
lemma extractAnchors_invariants (items : List TextItem) :
    (extractQuestionAnchorsFromLines (groupTextIntoLines items)).Pairwise anchorDescLe ∧
    (extractQuestionAnchorsFromLines (groupTextIntoLines items)).Pairwise
      (fun a b => a.y ≠ b.y) ∧
    (extractQuestionAnchorsFromLines (groupTextIntoLines items)).Pairwise
      (fun a b => a.lineIndex ≠ b.lineIndex) := by
  have hlines := groupTextIntoLines_strictDesc items
  have hyne_lines : ((groupTextIntoLines items).map (fun l => l.y)).Pairwise (· ≠ ·) :=
    List.pairwise_map.2 (hlines.imp (fun h => ne_of_gt h))
  have hyne_scan_map :
      ((anchorScan (groupTextIntoLines items) 0).map (fun a => a.y)).Pairwise (· ≠ ·) :=
    List.Pairwise.sublist (anchorScan_y_sublist (groupTextIntoLines items) 0) hyne_lines
  have hyne_scan : (anchorScan (groupTextIntoLines items) 0).Pairwise (fun a b => a.y ≠ b.y) :=
    List.pairwise_map.1 hyne_scan_map
  have hidx_scan : (anchorScan (groupTextIntoLines items) 0).Pairwise
      (fun a b => a.lineIndex ≠ b.lineIndex) :=
    (anchorScan_pairwise_lineIndex (groupTextIntoLines items) 0).imp (fun h => Nat.ne_of_lt h)
  have hperm := List.perm_insertionSort anchorDescLe (anchorScan (groupTextIntoLines items) 0)
  refine ⟨List.sorted_insertionSort anchorDescLe _, ?_, ?_⟩
  · exact (hperm.pairwise_iff (fun h => Ne.symm h)).mpr hyne_scan
  · exact (hperm.pairwise_iff (fun h => Ne.symm h)).mpr hidx_scan

/-! ## Region assignment facts (claim C1) -/

/-- The first components of `withNext` pairs are the list's elements. -/
lemma withNext_fst_mem {α : Type} :
    ∀ (l : List α) (p : α × Option α), p ∈ withNext l → p.1 ∈ l
  | [], p, hp => by simp [withNext] at hp
  | [a], p, hp => by
    simp [withNext] at hp
    simp [hp]
  | a :: b :: rest, p, hp => by
    rw [withNext] at hp
    rcases List.mem_cons.1 hp with rfl | hp
    · simp
    · exact List.mem_cons.2 (Or.inr (withNext_fst_mem (b :: rest) p hp))

/-- No anchor's band admits an image that sits strictly above every
anchor. -/
lemma assignedRegions_eq_nil_of_lt (anchors : List QuestionAnchorLine) (imgY : ℚ)
    (h : ∀ a ∈ anchors, a.y < imgY) : assignedRegions anchors imgY = [] := by
  unfold assignedRegions
  have : (withNext anchors).filter (fun p => imageInRegion p.1 p.2 imgY) = [] := by
    rw [List.filter_eq_nil_iff]
    intro p hp
    have hmem := withNext_fst_mem anchors p hp
    have hlt := h p.1 hmem
    simp [imageInRegion, not_le.2 hlt]
  rw [this, List.map_nil]

/-- For an image at or below the top anchor, exactly one band filter
admits it. -/
lemma assignedRegions_cons_of_le (a0 : QuestionAnchorLine) :
    ∀ (rest : List QuestionAnchorLine) (imgY : ℚ),
      (a0 :: rest).Pairwise (fun a b => b.y < a.y) → imgY ≤ a0.y →
      ∃ a, a ∈ a0 :: rest ∧ assignedRegions (a0 :: rest) imgY = [a] := by
  intro rest
  induction rest generalizing a0 with
  | nil =>
    intro imgY _ hle
    exact ⟨a0, by simp, by simp [assignedRegions, withNext, imageInRegion, hle]⟩
  | cons b rest ih =>
    intro imgY hdesc hle
    by_cases hb : imgY ≤ b.y
    · obtain ⟨a, ha, heq⟩ := ih b imgY hdesc.of_cons hb
      refine ⟨a, List.mem_cons.2 (Or.inr ha), ?_⟩
      have hhead : imageInRegion a0 (some b) imgY = false := by
        simp [imageInRegion, hb]
      rw [assignedRegions, withNext, List.filter_cons, hhead]
      simpa [assignedRegions] using heq
    · push_neg at hb
      have hhead : imageInRegion a0 (some b) imgY = true := by
        simp [imageInRegion, hle, hb]
      refine ⟨a0, by simp, ?_⟩
      rw [assignedRegions, withNext, List.filter_cons, hhead]
      have hnil : (withNext (b :: rest)).filter (fun p => imageInRegion p.1 p.2 imgY) = [] := by
        rw [List.filter_eq_nil_iff]
        intro p hp
        have hmem := withNext_fst_mem (b :: rest) p hp
        have hple : p.1.y ≤ b.y := by
          rcases List.mem_cons.1 hmem with rfl | hmem
          · exact le_refl _
          · exact le_of_lt (List.rel_of_pairwise_cons hdesc.of_cons hmem)
        have : p.1.y < imgY := lt_of_le_of_lt hple hb
        simp [imageInRegion, not_le.2 this]
      simp [hnil]

/-! ## State plumbing lemmas (claims C9, C10) -/

/-- The image fold of a region changes neither `questions` nor
`jsonWrites`. -/
lemma foldl_processRegionImage_fields {ρ : Type} (cfg : RunConfig) (pageIndex qn : ℕ) :
    ∀ (imgs : List ExtractedPageImage) (st : DocState ρ) (blocks : List OrderedBlock),
      ((imgs.foldl (processRegionImage cfg pageIndex qn) (st, blocks)).1).questions
          = st.questions ∧
        ((imgs.foldl (processRegionImage cfg pageIndex qn) (st, blocks)).1).jsonWrites
          = st.jsonWrites := by
  intro imgs
  induction imgs with
  | nil => intro st blocks; exact ⟨rfl, rfl⟩
  | cons img rest ih =>
    intro st blocks
    rw [List.foldl_cons]
    have hstep :
        processRegionImage cfg pageIndex qn (st, blocks) img =
          (({ st with
              extractedImages := st.extractedImages + 1,
              perQuestionCounts :=
                mapSet st.perQuestionCounts qn ((mapGet st.perQuestionCounts qn).getD 0 + 1),
              imageWrites := st.imageWrites ++
                [(cfg.imagesDirRelative ++ "/" ++
                    ("q" ++ toString qn ++ "_p" ++ toString pageIndex ++ "_"
                      ++ toString ((mapGet st.perQuestionCounts qn).getD 0 + 1) ++ ".png"),
                  img.pngBuffer)],
              linkedImages := st.linkedImages + 1 } : DocState ρ),
            blocks ++ [OrderedBlock.image img.y
              (cfg.imagesDirRelative ++ "/" ++
                ("q" ++ toString qn ++ "_p" ++ toString pageIndex ++ "_"
                  ++ toString ((mapGet st.perQuestionCounts qn).getD 0 + 1) ++ ".png"))
              ("Question " ++ toString qn ++ " image "
                ++ toString ((mapGet st.perQuestionCounts qn).getD 0 + 1))]) := rfl
    rw [hstep]
    exact ih _ _

/-- `updateFirstContent` changes at most the `content` fields. -/
lemma contentOnly_updateFirst {ρ : Type} (qs : List (Question ρ)) (n : ℕ) (h : String) :
    ContentOnlyUpdate qs (updateFirstContent qs n h) := by
  induction qs with
  | nil => exact List.Forall₂.nil
  | cons q rest ih =>
    by_cases hq : q.questionNumber = n
    · rw [updateFirstContent, if_pos hq]
      exact List.Forall₂.cons ⟨rfl, rfl⟩ (List.forall₂_same.2 (fun q _ => ⟨rfl, rfl⟩))
    · rw [updateFirstContent, if_neg hq]
      exact List.Forall₂.cons ⟨rfl, rfl⟩ ih

/-- `updateLastContent` changes at most the `content` fields. -/
lemma contentOnly_updateLast {ρ : Type} (qs : List (Question ρ)) (n : ℕ) (h : String) :
    ContentOnlyUpdate qs (updateLastContent qs n h) := by
  have h1 := contentOnly_updateFirst qs.reverse n h
  have h2 := List.rel_reverse h1
  simpa [updateLastContent] using h2

/-- `ContentOnlyUpdate` is reflexive. -/
lemma contentOnly_refl {ρ : Type} (qs : List (Question ρ)) : ContentOnlyUpdate qs qs :=
  List.forall₂_same.2 (fun q _ => ⟨rfl, rfl⟩)

/-- `ContentOnlyUpdate` is transitive. -/
lemma contentOnly_trans {ρ : Type} {a b c : List (Question ρ)} :
    ContentOnlyUpdate a b → ContentOnlyUpdate b c → ContentOnlyUpdate a c := by
  intro h1
  induction h1 generalizing c with
  | nil =>
    intro h2
    cases h2
    exact List.Forall₂.nil
  | @cons qa qb la lb hab _ ih =>
    intro h2
    cases h2 with
    | cons hbc h2 => exact List.Forall₂.cons ⟨hab.1.trans hbc.1, hab.2.trans hbc.2⟩ (ih h2)

/-- One anchor step changes the `questions` list only through a
content-only update, and leaves `jsonWrites` untouched. -/
lemma processAnchor_fields {ρ : Type} (cfg : RunConfig) (pageIndex : ℕ) (lines : List Line)
    (pageImages : List ExtractedPageImage) (st : DocState ρ) (anchor : QuestionAnchorLine)
    (nextAnchor : Option QuestionAnchorLine) :
    ContentOnlyUpdate st.questions
        (processAnchor cfg pageIndex lines pageImages st anchor nextAnchor).questions ∧
      (processAnchor cfg pageIndex lines pageImages st anchor nextAnchor).jsonWrites
        = st.jsonWrites := by
  rw [processAnchor.eq_def]
  cases hq : lookupQuestionByNumber st.questions anchor.questionNumber with
  | none => exact ⟨contentOnly_refl _, rfl⟩
  | some _ =>
    dsimp only
    split
    · exact ⟨contentOnly_refl _, rfl⟩
    · split
      · constructor
        · rw [(foldl_processRegionImage_fields cfg pageIndex anchor.questionNumber _ st []).1]
          exact contentOnly_updateLast _ _ _
        · exact (foldl_processRegionImage_fields cfg pageIndex anchor.questionNumber _ st []).2
      · constructor
        · rw [(foldl_processRegionImage_fields cfg pageIndex anchor.questionNumber _ st []).1]
          exact contentOnly_refl _
        · exact (foldl_processRegionImage_fields cfg pageIndex anchor.questionNumber _ st []).2

/-- The anchor fold of a page changes `questions` only through content-only
updates and leaves `jsonWrites` untouched. -/
lemma foldl_processAnchor_fields {ρ : Type} (cfg : RunConfig) (pageIndex : ℕ)
    (lines : List Line) (pageImages : List ExtractedPageImage) :
    ∀ (pairs : List (QuestionAnchorLine × Option QuestionAnchorLine)) (st : DocState ρ),
      ContentOnlyUpdate st.questions
          ((pairs.foldl (fun s p => processAnchor cfg pageIndex lines pageImages s p.1 p.2)
            st).questions) ∧
        (pairs.foldl (fun s p => processAnchor cfg pageIndex lines pageImages s p.1 p.2)
            st).jsonWrites = st.jsonWrites := by
  intro pairs
  induction pairs with
  | nil => intro st; exact ⟨contentOnly_refl _, rfl⟩
  | cons p rest ih =>
    intro st
    rw [List.foldl_cons]
    have hstep := processAnchor_fields cfg pageIndex lines pageImages st p.1 p.2
    have htail := ih (processAnchor cfg pageIndex lines pageImages st p.1 p.2)
    exact ⟨contentOnly_trans hstep.1 htail.1, htail.2.trans hstep.2⟩

/-- Page processing changes `questions` only through content-only
updates. -/
lemma processPage_contentOnly {ρ : Type} (cfg : RunConfig) (st : DocState ρ) (pageIndex : ℕ)
    (pd : PageData) :
    ContentOnlyUpdate st.questions (processPage cfg st pageIndex pd).questions := by
  rw [processPage.eq_def]
  dsimp only
  split
  · exact (foldl_processAnchor_fields cfg pageIndex _ _ _ st).1
  · exact (foldl_processAnchor_fields cfg pageIndex _ _ _ st).1

/-- The output JSON is flushed by a page exactly when the page yielded at
least one extracted image, and the flushed snapshot is the page's final
question list. -/
lemma processPage_jsonWrites {ρ : Type} (cfg : RunConfig) (st : DocState ρ) (pageIndex : ℕ)
    (pd : PageData) :
    (processPage cfg st pageIndex pd).jsonWrites =
      if (extractImagesFromPage pd.ops cfg.minWidth cfg.minHeight).length > 0 then
        st.jsonWrites ++ [(processPage cfg st pageIndex pd).questions]
      else st.jsonWrites := by
  rw [processPage.eq_def]
  dsimp only
  split
  · dsimp only
    rw [(foldl_processAnchor_fields cfg pageIndex
      (groupTextIntoLines pd.textItems)
      (extractImagesFromPage pd.ops cfg.minWidth cfg.minHeight)
      (withNext (extractQuestionAnchorsFromLines (groupTextIntoLines pd.textItems))) st).2]
  · exact (foldl_processAnchor_fields cfg pageIndex
      (groupTextIntoLines pd.textItems)
      (extractImagesFromPage pd.ops cfg.minWidth cfg.minHeight)
      (withNext (extractQuestionAnchorsFromLines (groupTextIntoLines pd.textItems))) st).2

/-- The whole page loop changes `questions` only through content-only
updates. -/
lemma runPagesFrom_contentOnly {ρ : Type} (cfg : RunConfig) :
    ∀ (pages : List (Except String PageData)) (pageIndex : ℕ) (st : DocState ρ),
      ContentOnlyUpdate st.questions (runPagesFrom cfg pages pageIndex st).questions := by
  intro pages
  induction pages with
  | nil => intro pageIndex st; exact contentOnly_refl _
  | cons p rest ih =>
    intro pageIndex st
    cases p with
    | ok pd =>
      rw [runPagesFrom]
      exact contentOnly_trans (processPage_contentOnly cfg st pageIndex pd)
        (ih (pageIndex + 1) _)
    | error e =>
      rw [runPagesFrom]
      exact ih (pageIndex + 1) (addPageLog st pageIndex e)

/-! ## Paragraph builder equivalence (claim C2) -/

/-- The source's paragraph loop coincides with the first-line-gap loop of
the amended claim: closing on `gap > 18` measured from the paragraph's
first line is the same as accumulating on `gap ≤ 18` measured from that
line. -/
lemma stemLoop_eq_firstLineGap :
    ∀ (ls : List Line) (cur : Option (ℚ × List String)),
      stemLoop ls cur = stemLoopFirstLineGap ls cur := by
  intro ls
  induction ls with
  | nil =>
    intro cur
    cases cur with
    | none => rfl
    | some yp => rfl
  | cons l rest ih =>
    intro cur
    rw [stemLoop.eq_def, stemLoopFirstLineGap.eq_def]
    dsimp only
    by_cases hn : isNoiseLine l.text
    · simp [hn, ih]
    · by_cases ho : isOptionLine l.text
      · simp [hn, ho]
      · cases cur with
        | none => simp [hn, ho, ih]
        | some yp =>
          obtain ⟨y, parts⟩ := yp
          by_cases hgap : y - l.y > 18
          · simp [hn, ho, hgap, not_le.2 hgap, ih]
          · simp [hn, ho, hgap, not_lt.1 hgap, ih]

/-! ## Page loop catch behavior (claim C8) -/

/-- Splitting the page loop around a failing page: the pages before it are
processed normally, the failure contributes exactly one log entry carrying
its own page index, and the loop then continues with the remaining pages
and otherwise unchanged state. -/
lemma runPagesFrom_append_error {ρ : Type} (cfg : RunConfig) :
    ∀ (pre post : List (Except String PageData)) (e : String) (startIndex : ℕ)
      (st : DocState ρ),
      runPagesFrom cfg (pre ++ Except.error e :: post) startIndex st =
        runPagesFrom cfg post (startIndex + pre.length + 1)
          (addPageLog (runPagesFrom cfg pre startIndex st) (startIndex + pre.length) e) := by
  intro pre
  induction pre with
  | nil =>
    intro post e startIndex st
    simp only [List.nil_append, List.length_nil, Nat.add_zero]
    rw [runPagesFrom, runPagesFrom]
  | cons p pre ih =>
    intro post e startIndex st
    rw [List.cons_append]
    cases p with
    | ok pd =>
      rw [runPagesFrom, runPagesFrom]
      rw [ih post e (startIndex + 1) (processPage cfg st startIndex pd)]
      have e1 : startIndex + 1 + pre.length + 1 = startIndex + (pre.length + 1) + 1 := by omega
      have e2 : startIndex + 1 + pre.length = startIndex + (pre.length + 1) := by omega
      rw [List.length_cons, e1, e2]
    | error e0 =>
      rw [runPagesFrom, runPagesFrom]
      rw [ih post e (startIndex + 1) (addPageLog st startIndex e0)]
      have e1 : startIndex + 1 + pre.length + 1 = startIndex + (pre.length + 1) + 1 := by omega
      have e2 : startIndex + 1 + pre.length = startIndex + (pre.length + 1) := by omega
      rw [List.length_cons, e1, e2]

/-! ## Pixel encoder facts (claim C7) -/

/-- Indexing after `drop`. -/
lemma get?_drop_eq {α : Type} : ∀ (n : ℕ) (l : List α) (m : ℕ),
    (l.drop n).get? m = l.get? (n + m)
  | 0, l, m => by simp
  | n + 1, [], m => by simp
  | n + 1, a :: t, m => by
    rw [List.drop_succ_cons, get?_drop_eq n t m, Nat.succ_add, List.get?_cons_succ]

/-- Dropping `k` whole pixels commutes with RGB-to-RGBA expansion. -/
lemma expandRgbToRgba_drop :
    ∀ (k : ℕ) (raw : List ℕ),
      (expandRgbToRgba raw).drop (4 * k) = expandRgbToRgba (raw.drop (3 * k)) := by
  intro k
  induction k with
  | zero => intro raw; simp
  | succ k ih =>
    intro raw
    match raw with
    | [] => simp [expandRgbToRgba]
    | [r] => simp [expandRgbToRgba]
    | [r, g] => simp [expandRgbToRgba]
    | r :: g :: b :: rest =>
      have e4 : 4 * (k + 1) = 4 + 4 * k := by ring
      have e3 : 3 * (k + 1) = 3 + 3 * k := by ring
      rw [e4, e3, ← List.drop_drop (4 * k) 4, ← List.drop_drop (3 * k) 3]
      have h1 : (expandRgbToRgba (r :: g :: b :: rest)).drop 4 = expandRgbToRgba rest := by
        rw [expandRgbToRgba]
        rfl
      have h2 : (r :: g :: b :: rest).drop 3 = rest := rfl
      rw [h1, h2, ih rest]

/-- Pixel `k` of the expanded buffer: the three source bytes in place and
an alpha byte 255. -/
lemma expandRgbToRgba_get (raw : List ℕ) (k : ℕ) (h : 3 * k + 2 < raw.length) :
    (expandRgbToRgba raw).get? (4 * k) = raw.get? (3 * k) ∧
      (expandRgbToRgba raw).get? (4 * k + 1) = raw.get? (3 * k + 1) ∧
      (expandRgbToRgba raw).get? (4 * k + 2) = raw.get? (3 * k + 2) ∧
      (expandRgbToRgba raw).get? (4 * k + 3) = some 255 := by
  have hd := expandRgbToRgba_drop k raw
  have hlen : 2 < (raw.drop (3 * k)).length := by
    rw [List.length_drop]; omega
  have hget : ∀ j : ℕ, (expandRgbToRgba raw).get? (4 * k + j) =
      (expandRgbToRgba (raw.drop (3 * k))).get? j := by
    intro j
    rw [← get?_drop_eq (4 * k) (expandRgbToRgba raw) j, hd]
  have hraw : ∀ j : ℕ, raw.get? (3 * k + j) = (raw.drop (3 * k)).get? j := by
    intro j
    rw [get?_drop_eq (3 * k) raw j]
  cases ht : raw.drop (3 * k) with
  | nil => rw [ht] at hlen; simp at hlen
  | cons r t1 =>
    cases t1 with
    | nil => rw [ht] at hlen; simp at hlen
    | cons g t2 =>
      cases t2 with
      | nil => rw [ht] at hlen; simp at hlen
      | cons b rest =>
        refine ⟨?_, ?_, ?_, ?_⟩
        · have h1 := hget 0
          have h2 := hraw 0
          rw [Nat.add_zero] at h1 h2
          rw [h1, h2, ht]
          simp [expandRgbToRgba]
        · rw [hget 1, hraw 1, ht]
          simp [expandRgbToRgba]
        · rw [hget 2, hraw 2, ht]
          simp [expandRgbToRgba]
        · rw [hget 3, ht]
          simp [expandRgbToRgba]

/-! ## Claim theorems -/

/-- Claim C1, counterexample: with the non-empty anchor list `[{q1, y 100}]`
an extracted image at `y = 150` lies above the topmost anchor, is admitted
by no anchor's band filter, and is therefore assigned to no anchor at all —
not to the minimum-signed-distance anchor the claim promises; that anchor
is exactly what the fallback `findBestAnchorForImage` (which the page loop
never invokes) would return. -/
theorem c1_counterexample :
    assignedRegions [⟨1, 100, 0⟩] 150 = [] ∧
      findBestAnchorForImage [⟨1, 100⟩] 150 = some ⟨1, 100⟩ :=
  ⟨by decide, by decide⟩

/-- Claim C1, amended: for a non-empty strictly descending anchor list, the
page loop's band filters assign an image at or below the top anchor to
exactly one anchor (the one whose half-open band contains its vertical
origin), and assign an image strictly above the top anchor to no anchor;
the minimum-signed-distance fallback is present in the code but unused. -/
theorem c1_amended_region_assignment (anchors : List QuestionAnchorLine) (imgY : ℚ)
    (hdesc : anchors.Pairwise (fun a b => b.y < a.y)) (hne : anchors ≠ []) :
    (imgY ≤ (anchors.head hne).y →
      ∃ a, a ∈ anchors ∧ assignedRegions anchors imgY = [a]) ∧
    ((anchors.head hne).y < imgY → assignedRegions anchors imgY = []) := by
  obtain ⟨a0, rest, rfl⟩ := List.exists_cons_of_ne_nil hne
  constructor
  · intro hle
    exact assignedRegions_cons_of_le a0 rest imgY hdesc (by simpa using hle)
  · intro hgt
    apply assignedRegions_eq_nil_of_lt
    intro a ha
    rcases List.mem_cons.1 ha with rfl | ha
    · simpa using hgt
    · exact lt_trans (List.rel_of_pairwise_cons hdesc ha) (by simpa using hgt)

/-- Witness for the amended claim C1 on a concrete two-anchor page with an
image inside the upper band. -/
theorem c1_amended_region_assignment_witness :
    (([⟨1, 100, 0⟩, ⟨2, 50, 1⟩] : List QuestionAnchorLine).Pairwise
        (fun a b => b.y < a.y)) ∧
      (∃ a, a ∈ ([⟨1, 100, 0⟩, ⟨2, 50, 1⟩] : List QuestionAnchorLine) ∧
        assignedRegions [⟨1, 100, 0⟩, ⟨2, 50, 1⟩] 70 = [a]) :=
  ⟨by decide,
   (c1_amended_region_assignment [⟨1, 100, 0⟩, ⟨2, 50, 1⟩] 70 (by decide) (by decide)).1
     (by decide)⟩

/-- Claim C2, counterexample: in `bandLinesSmallGaps` every line's gap to
the immediately previous line is 10 units (at most 18), yet the source's
builder closes the paragraph at the third line, whose gap to the current
paragraph's FIRST line is 20: the builder the claim describes returns one
paragraph, the code returns two. -/
theorem c2_counterexample :
    buildStemParagraphs bandLinesSmallGaps 0 3 =
        [⟨100, "alpha bravo"⟩, ⟨80, "charlie"⟩] ∧
      buildStemParagraphsPrevLineGap bandLinesSmallGaps 0 3 =
        [⟨100, "alpha bravo charlie"⟩] ∧
      (100 : ℚ) - 90 ≤ 18 ∧ (90 : ℚ) - 80 ≤ 18 :=
  ⟨by decide, by decide, by decide, by decide⟩

/-- Claim C2, amended: the Paragraph Builder accumulates consecutive
non-noise, non-option lines into the current paragraph exactly while the
vertical gap between the line and the FIRST line of the current paragraph
is at most 18 units; a gap to that first line exceeding 18 units closes
the paragraph and starts a new one at that line. -/
theorem c2_amended_paragraph_gap (lines : List Line) (startIndex endIndexExclusive : ℕ) :
    buildStemParagraphs lines startIndex endIndexExclusive =
      buildStemParagraphsFirstLineGap lines startIndex endIndexExclusive :=
  stemLoop_eq_firstLineGap _ _

/-- Claim C3, counterexample: a page whose text mentions `Question #3` on
two distinct lines produces two distinct anchors carrying the SAME
question number, so anchors do not map to unique question numbers within a
page. -/
theorem c3_counterexample :
    (extractQuestionAnchorsFromLines (groupTextIntoLines itemsQuestionTwice)).map
        (fun a => a.questionNumber) = [3, 3] ∧
      (extractQuestionAnchorsFromLines (groupTextIntoLines itemsQuestionTwice)).length = 2 :=
  ⟨by decide, by decide⟩

/-- Claim C3, amended: for every list of grouped text lines the anchor
list is strictly descending in vertical origin and no two anchors share a
line (their line indices are pairwise distinct); each anchor carries the
question number parsed from its own line, but distinct anchors may repeat
a question number when the marker text recurs on the page. -/
theorem c3_amended_anchor_invariants (items : List TextItem) :
    (extractQuestionAnchorsFromLines (groupTextIntoLines items)).Pairwise
        (fun a b => b.y < a.y) ∧
      (extractQuestionAnchorsFromLines (groupTextIntoLines items)).Pairwise
        (fun a b => a.lineIndex ≠ b.lineIndex) := by
  have h := extractAnchors_invariants items
  exact ⟨(h.1.and h.2.1).imp (fun hp => lt_of_le_of_ne hp.1 (Ne.symm hp.2)), h.2.2⟩

/-- Claim C4, counterexample: on the Scenario A page the band contains no
images, so the page loop skips the band before any HTML is built: the
question's content stays `"<p>orig</p>"` instead of being set to
`"<p>What is the capital of X?</p>"` as the claim asserts. -/
theorem c4_counterexample :
    (extractPdfImagesIntoQuestionsModel cfgScenarioA docScenarioA
        [Except.ok pageScenarioA]).1.questions.map (fun q => q.content) = ["<p>orig</p>"] ∧
      "<p>orig</p>" ≠ "<p>What is the capital of X?</p>" :=
  ⟨by decide, by decide⟩

/-- Claim C4, amended: for the Scenario A band the Paragraph Builder does
yield the single paragraph `"What is the capital of X?"`, and the Block
Interleaver would serialize it to `"<p>What is the capital of X?</p>"`;
but because the band contains no images, the run leaves the target
question's content field unchanged (content is only rewritten for bands
that yield at least one image). -/
theorem c4_amended_scenario_a :
    buildStemParagraphs (groupTextIntoLines itemsScenarioA) 1 4 =
        [⟨660, "What is the capital of X?"⟩] ∧
      interleaveBandHtml [OrderedBlock.text 660 "What is the capital of X?"] =
        "<p>What is the capital of X?</p>" ∧
      (extractPdfImagesIntoQuestionsModel cfgScenarioA docScenarioA
        [Except.ok pageScenarioA]).1.questions = docScenarioA.questions :=
  ⟨by decide, by decide, by decide⟩

/-- Claim C5: the Block Interleaver is a pure function of the band's
paragraph blocks and assigned image blocks — two runs on the same
(immutable) band produce byte-identical HTML. -/
theorem c5_block_interleaver_deterministic
    (textBlocks imageBlocks textBlocks2 imageBlocks2 : List OrderedBlock)
    (ht : textBlocks = textBlocks2) (hi : imageBlocks = imageBlocks2) :
    interleaveBandHtml (textBlocks ++ imageBlocks) =
      interleaveBandHtml (textBlocks2 ++ imageBlocks2) := by
  rw [ht, hi]

/-- Witness for claim C5 on a concrete band with one paragraph and one
image block. -/
theorem c5_block_interleaver_deterministic_witness :
    ([OrderedBlock.text 700 "stem"] = [OrderedBlock.text 700 "stem"]) ∧
      ([OrderedBlock.image 680 "images/exam/q1_p1_1.png" "Question 1 image 1"] =
        [OrderedBlock.image 680 "images/exam/q1_p1_1.png" "Question 1 image 1"]) ∧
      interleaveBandHtml ([OrderedBlock.text 700 "stem"] ++
          [OrderedBlock.image 680 "images/exam/q1_p1_1.png" "Question 1 image 1"]) =
        interleaveBandHtml ([OrderedBlock.text 700 "stem"] ++
          [OrderedBlock.image 680 "images/exam/q1_p1_1.png" "Question 1 image 1"]) :=
  ⟨rfl, rfl,
   c5_block_interleaver_deterministic
     [OrderedBlock.text 700 "stem"]
     [OrderedBlock.image 680 "images/exam/q1_p1_1.png" "Question 1 image 1"]
     [OrderedBlock.text 700 "stem"]
     [OrderedBlock.image 680 "images/exam/q1_p1_1.png" "Question 1 image 1"] rfl rfl⟩

/-- Claim C6: a transform operator replaces the CTM by exactly the
row-vector affine composition of the current transform with the incoming
matrix, and a restore operator on an empty transform stack yields the
identity transform. -/
theorem c6_transform_and_restore (minWidth minHeight : ℕ) (s : GfxState) (m : PdfMatrix) :
    (interpStep minWidth minHeight s (PdfOp.transform m)).ctm =
        ⟨s.ctm.a * m.a + s.ctm.c * m.b, s.ctm.b * m.a + s.ctm.d * m.b,
         s.ctm.a * m.c + s.ctm.c * m.d, s.ctm.b * m.c + s.ctm.d * m.d,
         s.ctm.a * m.e + s.ctm.c * m.f + s.ctm.e,
         s.ctm.b * m.e + s.ctm.d * m.f + s.ctm.f⟩ ∧
      (s.stack = [] →
        (interpStep minWidth minHeight s PdfOp.restore).ctm = ⟨1, 0, 0, 1, 0, 0⟩) := by
  constructor
  · rfl
  · intro h
    simp [interpStep, h, identityMatrix]

/-- Witness for claim C6 at a concrete state with an empty stack. -/
theorem c6_transform_and_restore_witness :
    ((⟨[], ⟨1, 0, 0, 1, 0, 0⟩, []⟩ : GfxState).stack = []) ∧
      (interpStep 80 80 ⟨[], ⟨1, 0, 0, 1, 0, 0⟩, []⟩
          (PdfOp.transform ⟨2, 0, 0, 3, 10, 20⟩)).ctm =
        ⟨(1 : ℚ) * 2 + 0 * 0, 0 * 2 + 1 * 0, 1 * 0 + 0 * 3, 0 * 0 + 1 * 3,
          1 * 10 + 0 * 20 + 0, 0 * 10 + 1 * 20 + 0⟩ ∧
      (interpStep 80 80 ⟨[], ⟨1, 0, 0, 1, 0, 0⟩, []⟩ PdfOp.restore).ctm = ⟨1, 0, 0, 1, 0, 0⟩ :=
  ⟨rfl,
   (c6_transform_and_restore 80 80 ⟨[], ⟨1, 0, 0, 1, 0, 0⟩, []⟩ ⟨2, 0, 0, 3, 10, 20⟩).1,
   (c6_transform_and_restore 80 80 ⟨[], ⟨1, 0, 0, 1, 0, 0⟩, []⟩ ⟨2, 0, 0, 3, 10, 20⟩).2 rfl⟩

/-- Claim C7: the Pixel Encoder produces a PNG exactly when the raw buffer
is RGBA (`width*height*4` bytes, used directly) or RGB (`width*height*3`
bytes, expanded pixelwise to RGBA with alpha 255); any other byte length
produces no image rather than a guessed layout. -/
theorem c7_pixel_encoder (img : ImageObj) :
    ((rgbaToPngBuffer (some img)).isSome ↔
        (img.data.length = img.width * img.height * 4 ∨
          img.data.length = img.width * img.height * 3)) ∧
      (img.data.length = img.width * img.height * 4 →
        rgbaToPngBuffer (some img) = some ⟨img.width, img.height, img.data⟩) ∧
      (img.data.length = img.width * img.height * 3 →
        img.data.length ≠ img.width * img.height * 4 →
        rgbaToPngBuffer (some img) = some ⟨img.width, img.height, expandRgbToRgba img.data⟩) ∧
      (∀ k : ℕ, 3 * k + 2 < img.data.length →
        (expandRgbToRgba img.data).get? (4 * k) = img.data.get? (3 * k) ∧
          (expandRgbToRgba img.data).get? (4 * k + 1) = img.data.get? (3 * k + 1) ∧
          (expandRgbToRgba img.data).get? (4 * k + 2) = img.data.get? (3 * k + 2) ∧
          (expandRgbToRgba img.data).get? (4 * k + 3) = some 255) := by
  refine ⟨?_, ?_, ?_, ?_⟩
  · simp only [rgbaToPngBuffer]
    by_cases h4 : img.data.length = img.width * img.height * 4
    · rw [if_pos h4]
      simp [h4]
    · rw [if_neg h4]
      by_cases h3 : img.data.length = img.width * img.height * 3
      · rw [if_pos h3]
        simp [h3]
      · rw [if_neg h3]
        simp [h4, h3]
  · intro h4
    simp only [rgbaToPngBuffer]
    rw [if_pos h4]
  · intro h3 hne
    simp only [rgbaToPngBuffer]
    rw [if_neg hne, if_pos h3]
  · intro k hk
    exact expandRgbToRgba_get img.data k hk

/-- Witness for claim C7: a 1×1 RGB pixel is expanded with alpha 255, and
a malformed 2-byte buffer yields no image. -/
theorem c7_pixel_encoder_witness :
    rgbaToPngBuffer (some ⟨1, 1, [7, 8, 9]⟩) = some ⟨1, 1, expandRgbToRgba [7, 8, 9]⟩ ∧
      (3 * 0 + 2 < ([7, 8, 9] : List ℕ).length) ∧
      (expandRgbToRgba ([7, 8, 9] : List ℕ)).get? (4 * 0 + 3) = some 255 ∧
      rgbaToPngBuffer (some ⟨2, 2, [0, 0]⟩) = none :=
  ⟨(c7_pixel_encoder ⟨1, 1, [7, 8, 9]⟩).2.2.1 (by decide) (by decide),
   by decide,
   ((c7_pixel_encoder ⟨1, 1, [7, 8, 9]⟩).2.2.2 0 (by decide)).2.2.2,
   by decide⟩

/-- Claim C8: an exception thrown while processing a page is caught and
logged with that page's index, after which the loop continues with the
next page on otherwise unchanged state — splitting any run around a
failing page shows that the preceding pages are processed normally, the
failure contributes exactly one log entry carrying its own 1-based page
index, and the remaining pages are still processed. -/
theorem c8_page_failure_isolated {ρ : Type} (cfg : RunConfig)
    (pre post : List (Except String PageData)) (e : String) (startIndex : ℕ)
    (st : DocState ρ) :
    runPagesFrom cfg (pre ++ Except.error e :: post) startIndex st =
      runPagesFrom cfg post (startIndex + pre.length + 1)
        (addPageLog (runPagesFrom cfg pre startIndex st) (startIndex + pre.length) e) :=
  runPagesFrom_append_error cfg pre post e startIndex st

/-- Claim C9: a run reads and writes only `questionNumber` and `content` —
the written document keeps the surrounding structure and, for every
question (in order), the question number and all fields other than
`content` unchanged. -/
theorem c9_frame_only_content {ρ δ : Type} (cfg : RunConfig) (doc : QuestionsDoc ρ δ)
    (pages : List (Except String PageData)) :
    (extractPdfImagesIntoQuestionsModel cfg doc pages).1.extra = doc.extra ∧
      ContentOnlyUpdate doc.questions
        (extractPdfImagesIntoQuestionsModel cfg doc pages).1.questions := by
  constructor
  · rfl
  · have h := runPagesFrom_contentOnly cfg pages 1 (initialDocState doc)
    simpa [extractPdfImagesIntoQuestionsModel, initialDocState] using h

/-- Claim C10: after the page loop the output JSON is written one final,
unconditional time (so the write list is never empty and ends with the
final question list), while the per-page flushes happen exactly for pages
whose operator stream yielded at least one extracted image. -/
theorem c10_json_write_discipline {ρ δ : Type} (cfg : RunConfig) (doc : QuestionsDoc ρ δ)
    (pages : List (Except String PageData)) :
    ((extractPdfImagesIntoQuestionsModel cfg doc pages).2.jsonWrites ≠ [] ∧
        (extractPdfImagesIntoQuestionsModel cfg doc pages).2.jsonWrites.getLast? =
          some (extractPdfImagesIntoQuestionsModel cfg doc pages).1.questions) ∧
      ∀ (st : DocState ρ) (pageIndex : ℕ) (pd : PageData),
        (extractImagesFromPage pd.ops cfg.minWidth cfg.minHeight = [] →
          (processPage cfg st pageIndex pd).jsonWrites = st.jsonWrites) ∧
        (extractImagesFromPage pd.ops cfg.minWidth cfg.minHeight ≠ [] →
          (processPage cfg st pageIndex pd).jsonWrites =
            st.jsonWrites ++ [(processPage cfg st pageIndex pd).questions]) := by
  constructor
  · constructor
    · simp [extractPdfImagesIntoQuestionsModel]
    · simp [extractPdfImagesIntoQuestionsModel, List.getLast?_concat]
  · intro st pageIndex pd
    constructor
    · intro hnil
      rw [processPage_jsonWrites]
      simp [hnil]
    · intro hne
      rw [processPage_jsonWrites]
      have hpos : (extractImagesFromPage pd.ops cfg.minWidth cfg.minHeight).length > 0 :=
        List.length_pos.2 hne
      simp [hpos]

/-- Witness for claim C10: an empty page produces no per-page flush, and a
run over no pages still writes the output exactly once. -/
theorem c10_json_write_discipline_witness :
    extractImagesFromPage ((⟨[], []⟩ : PageData)).ops 80 80 = [] ∧
      (processPage ⟨"images/exam", 80, 80⟩
          (initialDocState (⟨[], ()⟩ : QuestionsDoc Unit Unit)) 1 ⟨[], []⟩).jsonWrites =
        (initialDocState (⟨[], ()⟩ : QuestionsDoc Unit Unit)).jsonWrites ∧
      (extractPdfImagesIntoQuestionsModel ⟨"images/exam", 80, 80⟩
          (⟨[], ()⟩ : QuestionsDoc Unit Unit) []).2.jsonWrites ≠ [] :=
  ⟨by decide,
   ((c10_json_write_discipline ⟨"images/exam", 80, 80⟩ (⟨[], ()⟩ : QuestionsDoc Unit Unit)
         []).2 (initialDocState ⟨[], ()⟩) 1 ⟨[], []⟩).1 (by decide),
   (c10_json_write_discipline ⟨"images/exam", 80, 80⟩ (⟨[], ()⟩ : QuestionsDoc Unit Unit)
       []).1.1⟩
